import Mathlib

/-!
Shallow embedding of `src/supervisor.py` (continuous tshark capture
supervisor).  External collaborators (tshark, editcap, mergecap) and the
filesystem are modelled as oracles supplied through an environment
record; every filesystem-affecting step of the Python code is recorded
as an operation in a trace, so that claims about deletion, cleanup and
ordering become statements about the trace.
-/

/-- Configuration constant `OUTPUT_DIR` from the source. -/
def OUTPUT_DIR : String := "/captures"

/-- Configuration constant `TEMP_DIR` from the source. -/
def TEMP_DIR : String := "/captures/tmp"

/-- Configuration constant `WAIT_AFTER_FINISH` (seconds) from the source. -/
def WAIT_AFTER_FINISH : Nat := 2

/-- Configuration constant `MERGE_RETRIES` from the source. -/
def MERGE_RETRIES : Nat := 5

/-- Configuration constant `MERGE_DELAY` (seconds) from the source. -/
def MERGE_DELAY : Nat := 2

/-- The fixed split directory `os.path.join(TEMP_DIR, "split")` used by
the split branch of `merge_temp_file`. -/
def splitDir : String := TEMP_DIR ++ "/split"

/-- A Python `datetime` value as used by the supervisor: only the
calendar/clock fields that the code reads (`.hour`, `.date()`,
`strftime`, comparison). -/
structure PyDateTime where
  year : Nat
  month : Nat
  day : Nat
  hour : Nat
  minute : Nat
  second : Nat
deriving DecidableEq, Repr

/-- Python's `datetime.date()`: the calendar-date triple. -/
def dateOf (t : PyDateTime) : Nat × Nat × Nat := (t.year, t.month, t.day)

/-- Linear encoding of a `PyDateTime`; on field values in their Python
ranges (month ≤ 12, day ≤ 31, hour ≤ 23, minute, second ≤ 60) it orders
datetimes exactly as Python's `datetime` comparison does. -/
def dtVal (t : PyDateTime) : Nat :=
  ((((t.year * 100 + t.month) * 100 + t.day) * 100 + t.hour) * 100 + t.minute) * 100
    + t.second

/-- Field bounds guaranteed by Python's `datetime` type
(`1 ≤ year ≤ 9999`, `1 ≤ month ≤ 12`, `1 ≤ day ≤ 31`, `0 ≤ hour ≤ 23`). -/
def validDT (t : PyDateTime) : Prop :=
  t.year ≤ 9999 ∧ t.month ≤ 12 ∧ t.day ≤ 31 ∧ t.hour ≤ 23

instance (t : PyDateTime) : Decidable (validDT t) := by
  unfold validDT; infer_instance

/-- Fixed-width base-10 digit expansion, most significant first:
`natDigits w n` is the `w`-digit zero-padded decimal form of `n % 10^w`,
as produced by `strftime`'s zero-padded numeric fields. -/
def natDigits : Nat → Nat → List Nat
  | 0, _ => []
  | w + 1, n => natDigits w (n / 10) ++ [n % 10]

/-- Recombine a digit list (most significant first) into a number. -/
def undigits (l : List Nat) : Nat := l.foldl (fun a d => a * 10 + d) 0

/-- Decimal digit to its character, as in a `strftime` numeric field. -/
def digitToChar (d : Nat) : Char :=
  match d with
  | 0 => '0' | 1 => '1' | 2 => '2' | 3 => '3' | 4 => '4'
  | 5 => '5' | 6 => '6' | 7 => '7' | 8 => '8' | 9 => '9'
  | _ => '*'

/-- The bucket key `first_time.strftime("%Y%m%d_%H")` from the source:
four zero-padded year digits, two month digits, two day digits, an
underscore, and two hour digits, in local wall-clock fields. -/
def hourBucketKey (t : PyDateTime) : String :=
  ⟨(natDigits 4 t.year).map digitToChar ++
    ((natDigits 2 t.month).map digitToChar ++
      ((natDigits 2 t.day).map digitToChar ++
        ('_' :: (natDigits 2 t.hour).map digitToChar)))⟩

/-- The straddle test of `merge_temp_file` (line 77):
`first_time.hour != last_time.hour or first_time.date() != last_time.date()`. -/
def straddleB (ft lt : PyDateTime) : Bool :=
  decide (ft.hour ≠ lt.hour ∨ dateOf ft ≠ dateOf lt)

/-- The hourly aggregate path `os.path.join(OUTPUT_DIR, f"cap_{hour_key}.pcapng")`. -/
def hourPath (t : PyDateTime) : String :=
  OUTPUT_DIR ++ "/cap_" ++ hourBucketKey t ++ ".pcapng"

/-- One observable step of the supervisor: an external collaborator
invocation (with its success flag) or a filesystem operation.  `sleep`
durations are in tenths of a second so that the `0.1` second poll sleep
is representable. -/
inductive FsOp where
  | invoke (cmd : List String) (ok : Bool)
  | removeFile (p : String)
  | renameFile (src dst : String)
  | makeDirs (p : String)
  | rmTree (p : String)
  | sleep (tenths : Nat)
deriving DecidableEq, Repr

/-- A Python exception escaping a supervisor function, or exhaustion of
the recursion budget of the embedding (Python's recursion limit). -/
inductive PyErr where
  | calledProcessError
  | attributeError
  | recursionLimit
deriving DecidableEq, Repr

/-- The command run by `get_first_last_time` (lines 41-44). -/
def tsharkQueryCmd (p : String) : List String :=
  ["tshark", "-r", p, "-T", "fields", "-e", "frame.time_epoch"]

/-- The command run by `safe_merge` (line 59): note the output path and
the first input path are both `hour_file`. -/
def mergecapCmd (hourFile tempFile : String) : List String :=
  ["mergecap", "-w", hourFile, hourFile, tempFile]

/-- The command run by the split branch of `merge_temp_file`
(lines 80-83). -/
def editcapCmd (tempFile : String) : List String :=
  ["editcap", "-F", "pcapng", "-i", "3600", tempFile, splitDir ++ "/split.pcapng"]

/-- Body of `get_first_last_time` (the `try` block, lines 41-49), over
the timestamp collaborator's response: `none` models the query or the
parsing/conversion raising, `some frames` the parsed per-frame
timestamps.  An `Except.error` is an exception inside the `try`. -/
def getFirstLastBody (resp : Option (List PyDateTime)) :
    Except PyErr (Option PyDateTime × Option PyDateTime) :=
  match resp with
  | none => .error .calledProcessError
  | some [] => .ok (none, none)
  | some (t :: ts) => .ok (some t, (t :: ts).getLast?)

/-- `get_first_last_time` (lines 38-52): the body with its
`except Exception` handler, which maps every exception to
`(None, None)`. -/
def get_first_last_time (resp : Option (List PyDateTime)) :
    Option PyDateTime × Option PyDateTime :=
  match getFirstLastBody resp with
  | .ok r => r
  | .error _ => (none, none)

/-- The retry loop of `safe_merge` (lines 57-67): `outcomes i` is the
exit status of the `i`-th mergecap invocation, `n` the remaining
attempts, `i` the current attempt index.  Returns the emitted trace and
the boolean result. -/
def safeMergeAttempts (hourFile tempFile : String) (outcomes : Nat → Bool) :
    Nat → Nat → List FsOp × Bool
  | 0, _ => ([], false)
  | n + 1, i =>
    if outcomes i then
      ([FsOp.invoke (mergecapCmd hourFile tempFile) true,
        FsOp.removeFile tempFile], true)
    else
      let rest := safeMergeAttempts hourFile tempFile outcomes n (i + 1)
      (FsOp.invoke (mergecapCmd hourFile tempFile) false ::
        FsOp.sleep (MERGE_DELAY * 10) :: rest.1, rest.2)

/-- `safe_merge` (lines 54-67): initial wait, then the retry loop. -/
def safe_merge (hourFile tempFile : String) (outcomes : Nat → Bool)
    (retries : Nat) (initialWaitTenths : Nat) : List FsOp × Bool :=
  let r := safeMergeAttempts hourFile tempFile outcomes retries 0
  (FsOp.sleep initialWaitTenths :: r.1, r.2)

/-- Number of merge-collaborator invocations recorded in a trace. -/
def invokeCount (tr : List FsOp) : Nat :=
  tr.countP fun op => match op with | .invoke _ _ => true | _ => false

/-- Byte-wise lexicographic comparison of char lists, as Python's
`sorted` orders strings. -/
def strLeAux : List Char → List Char → Bool
  | [], _ => true
  | _ :: _, [] => false
  | a :: as, b :: bs =>
    if a.toNat < b.toNat then true
    else if b.toNat < a.toNat then false
    else strLeAux as bs

/-- Lexicographic string order used to model Python's `sorted`. -/
def strLe (a b : String) : Bool := strLeAux a.data b.data

/-- Insert into a sorted list (auxiliary to `sortStrings`). -/
def insertSorted (s : String) : List String → List String
  | [] => [s]
  | t :: ts => if strLe s t then s :: t :: ts else t :: insertSorted s ts

/-- Python's `sorted` on a list of file names. -/
def sortStrings (l : List String) : List String :=
  l.foldr insertSorted []

/-- The oracle environment: the behaviour of the external collaborators
and of filesystem queries, as observed by one supervisor run.
`frameTimes p` is the timestamp collaborator's parsed response for
segment `p` (`none` models a failed query or parse); `splitOutputs p`
is the directory listing produced by a split of `p` (`none` models the
split collaborator exiting nonzero); `mergeOutcomes p i` is the exit
status of the `i`-th mergecap attempt for segment `p`;
`hourFileExists h` is `os.path.exists(h)`. -/
structure SupEnv where
  frameTimes : String → Option (List PyDateTime)
  splitOutputs : String → Option (List String)
  mergeOutcomes : String → Nat → Bool
  hourFileExists : String → Bool

/-- The merge-executor tail of `merge_temp_file` (lines 90-97): merge
into the existing hourly aggregate, or rename the segment into place. -/
def mergeExecutor (env : SupEnv) (tempFile : String) (ft : PyDateTime) : List FsOp :=
  if env.hourFileExists (hourPath ft) then
    (safe_merge (hourPath ft) tempFile (env.mergeOutcomes tempFile)
      MERGE_RETRIES (WAIT_AFTER_FINISH * 10)).1
  else
    [FsOp.renameFile tempFile (hourPath ft)]

/-- Sequential processing of split outputs (the `for` loop of lines
85-86): each sub-segment is handed to `g`; an exception from `g` stops
the iteration and propagates. -/
def runSubs (g : String → List FsOp × Except PyErr Unit) :
    List String → List FsOp × Except PyErr Unit
  | [] => ([], .ok ())
  | f :: fs =>
    let r := g f
    match r.2 with
    | .error e => (r.1, .error e)
    | .ok _ =>
      let rest := runSubs g fs
      (r.1 ++ rest.1, rest.2)

/-- `merge_temp_file` (lines 69-97), with a recursion budget (Python's
recursion limit) as fuel.  Returns the trace of operations and either
normal return or the exception escaping the call. -/
def merge_temp_file (env : SupEnv) : Nat → String → List FsOp × Except PyErr Unit
  | 0, _ => ([], .error .recursionLimit)
  | fuel + 1, tempFile =>
    let resp := env.frameTimes tempFile
    let q := FsOp.invoke (tsharkQueryCmd tempFile) resp.isSome
    match get_first_last_time resp with
    | (none, _) => ([q, FsOp.removeFile tempFile], .ok ())
    | (some ft, olt) =>
      match olt with
      | none => ([q], .error .attributeError)
      | some lt =>
        if straddleB ft lt then
          match env.splitOutputs tempFile with
          | none =>
            ([q, FsOp.makeDirs splitDir, FsOp.invoke (editcapCmd tempFile) false],
              .error .calledProcessError)
          | some files =>
            let pre := [q, FsOp.makeDirs splitDir,
              FsOp.invoke (editcapCmd tempFile) true, FsOp.removeFile tempFile]
            let sub := runSubs
              (fun f => merge_temp_file env fuel (splitDir ++ "/" ++ f))
              (sortStrings files)
            match sub.2 with
            | .ok _ => (pre ++ sub.1 ++ [FsOp.rmTree splitDir], .ok ())
            | .error e => (pre ++ sub.1, .error e)
        else
          (q :: mergeExecutor env tempFile ft, .ok ())

/-- One directory observation handed to a supervisor-loop iteration:
the raw `os.listdir(TEMP_DIR)` result, the stop flag, and whether the
capture producer process is alive. -/
structure SupObs where
  listing : List String
  stop : Bool
  tsharkAlive : Bool
deriving DecidableEq, Repr

/-- Python's `str.endswith`, over the underlying character lists. -/
def strEndsWith (s post : String) : Bool :=
  decide (post.data.length ≤ s.data.length) &&
    decide (s.data.drop (s.data.length - post.data.length) = post.data)

/-- The filtered, sorted candidate list of one iteration (line 104). -/
def pcapFiles (l : List String) : List String :=
  sortStrings (l.filter fun f => strEndsWith f ".pcapng")

/-- The inner `for` loops of `supervisor_loop` (lines 109-113 and
118-122): hand every not-yet-processed file to `merge_temp_file`,
recording it in the processed set; an exception aborts the iteration
and propagates, leaving the failing file unrecorded. -/
def processList (env : SupEnv) (mtfFuel : Nat) :
    List String → List String → List FsOp × List String × Except PyErr Unit
  | [], processed => ([], processed, .ok ())
  | f :: fs, processed =>
    let p := TEMP_DIR ++ "/" ++ f
    if p ∈ processed then processList env mtfFuel fs processed
    else
      let r := merge_temp_file env mtfFuel p
      match r.2 with
      | .error e => (r.1, processed, .error e)
      | .ok _ =>
        let rest := processList env mtfFuel fs (p :: processed)
        (r.1 ++ rest.1, rest.2.1, rest.2.2)

/-- `supervisor_loop` (lines 100-128), with `sched i` the observation
of iteration `i` and `fuel` a bound on the number of iterations (the
embedding's budget; an unfinished run reports `recursionLimit`).  On
normal exit it returns the final processed set together with the
observation of the exiting iteration. -/
def supervisor_loop (env : SupEnv) (sched : Nat → SupObs) (mtfFuel : Nat) :
    Nat → Nat → List String → List FsOp × Except PyErr (List String × SupObs)
  | 0, _, _ => ([], .error .recursionLimit)
  | fuel + 1, i, processed =>
    let obs := sched i
    let files := pcapFiles obs.listing
    let phase1 :=
      if files.length ≥ 2 then
        let r := processList env mtfFuel files.dropLast processed
        (FsOp.sleep (WAIT_AFTER_FINISH * 10) :: r.1, r.2)
      else ([], processed, .ok ())
    match phase1.2.2 with
    | .error e => (phase1.1, .error e)
    | .ok _ =>
      if obs.stop && !obs.tsharkAlive then
        let r2 := processList env mtfFuel files phase1.2.1
        match r2.2.2 with
        | .error e => (phase1.1 ++ r2.1, .error e)
        | .ok _ => (phase1.1 ++ r2.1, .ok (r2.2.1, obs))
      else
        let slp := if files.length < 2 then 100 else 1
        let rest := supervisor_loop env sched mtfFuel fuel (i + 1) phase1.2.1
        (phase1.1 ++ FsOp.sleep slp :: rest.1, rest.2)

lemma natDigits_length (w n : Nat) : (natDigits w n).length = w := by
  induction w generalizing n with
  | zero => rfl
  | succ w ih => simp [natDigits, ih]

lemma natDigits_lt_ten (w n : Nat) : ∀ d ∈ natDigits w n, d < 10 := by
  induction w generalizing n with
  | zero => simp [natDigits]
  | succ w ih =>
    intro d hd
    simp only [natDigits, List.mem_append, List.mem_singleton] at hd
    rcases hd with h | h
    · exact ih _ d h
    · omega

lemma undigits_append_digit (l : List Nat) (d : Nat) :
    undigits (l ++ [d]) = undigits l * 10 + d := by
  simp [undigits, List.foldl_append]

lemma undigits_natDigits (w n : Nat) : undigits (natDigits w n) = n % 10 ^ w := by
  induction w generalizing n with
  | zero => simp [natDigits, undigits, Nat.mod_one]
  | succ w ih =>
    rw [natDigits, undigits_append_digit, ih]
    rw [pow_succ, Nat.mul_comm (10 ^ w) 10, Nat.mod_mul]
    ring

lemma natDigits_inj {w a b : Nat} (ha : a < 10 ^ w) (hb : b < 10 ^ w)
    (h : natDigits w a = natDigits w b) : a = b := by
  have := congrArg undigits h
  rwa [undigits_natDigits, undigits_natDigits, Nat.mod_eq_of_lt ha,
    Nat.mod_eq_of_lt hb] at this

lemma digitToChar_inj {a b : Nat} (ha : a < 10) (hb : b < 10)
    (h : digitToChar a = digitToChar b) : a = b := by
  interval_cases a <;> interval_cases b <;> simp_all [digitToChar]

lemma map_digitToChar_inj : ∀ l₁ l₂ : List Nat, (∀ d ∈ l₁, d < 10) →
    (∀ d ∈ l₂, d < 10) → l₁.map digitToChar = l₂.map digitToChar → l₁ = l₂ := by
  intro l₁
  induction l₁ with
  | nil => intro l₂ _ _ h; cases l₂ <;> simp_all
  | cons a t ih =>
    intro l₂ h₁ h₂ h
    cases l₂ with
    | nil => simp at h
    | cons b t₂ =>
      simp only [List.map_cons, List.cons.injEq] at h
      have hab := digitToChar_inj (h₁ a (by simp)) (h₂ b (by simp)) h.1
      subst hab
      rw [ih t₂ (fun d hd => h₁ d (by simp [hd])) (fun d hd => h₂ d (by simp [hd])) h.2]

lemma digitBlock_inj {w a b : Nat} (ha : a < 10 ^ w) (hb : b < 10 ^ w)
    (h : (natDigits w a).map digitToChar = (natDigits w b).map digitToChar) :
    a = b :=
  natDigits_inj ha hb
    (map_digitToChar_inj _ _ (natDigits_lt_ten w a) (natDigits_lt_ten w b) h)

lemma hourBucketKey_inj {t₁ t₂ : PyDateTime} (h₁ : validDT t₁) (h₂ : validDT t₂)
    (h : hourBucketKey t₁ = hourBucketKey t₂) :
    t₁.year = t₂.year ∧ t₁.month = t₂.month ∧ t₁.day = t₂.day ∧
      t₁.hour = t₂.hour := by
  obtain ⟨hy₁, hm₁, hd₁, hh₁⟩ := h₁
  obtain ⟨hy₂, hm₂, hd₂, hh₂⟩ := h₂
  unfold hourBucketKey at h
  replace h := congrArg String.data h
  simp only at h
  have hlen : ∀ w n, ((natDigits w n).map digitToChar).length = w := by
    intro w n; rw [List.length_map, natDigits_length]
  obtain ⟨hYr, h⟩ := List.append_inj h (by rw [hlen, hlen])
  obtain ⟨hMo, h⟩ := List.append_inj h (by rw [hlen, hlen])
  obtain ⟨hDa, h⟩ := List.append_inj h (by rw [hlen, hlen])
  rw [List.cons.injEq] at h
  refine ⟨digitBlock_inj (by omega) (by omega) hYr,
    digitBlock_inj (by omega) (by omega) hMo,
    digitBlock_inj (by omega) (by omega) hDa,
    digitBlock_inj (by omega) (by omega) h.2⟩

lemma hourBucketKey_eq_iff {t₁ t₂ : PyDateTime} (h₁ : validDT t₁) (h₂ : validDT t₂) :
    hourBucketKey t₁ = hourBucketKey t₂ ↔
      t₁.hour = t₂.hour ∧ dateOf t₁ = dateOf t₂ := by
  constructor
  · intro h
    obtain ⟨hy, hm, hd, hh⟩ := hourBucketKey_inj h₁ h₂ h
    exact ⟨hh, by simp [dateOf, hy, hm, hd]⟩
  · rintro ⟨hh, hdate⟩
    simp only [dateOf, Prod.mk.injEq] at hdate
    obtain ⟨hy, hm, hd⟩ := hdate
    simp [hourBucketKey, hy, hm, hd, hh]

lemma invokeCount_nil : invokeCount [] = 0 := rfl

lemma invokeCount_invoke (c : List String) (b : Bool) (l : List FsOp) :
    invokeCount (FsOp.invoke c b :: l) = invokeCount l + 1 := by
  simp [invokeCount, List.countP_cons]

lemma invokeCount_sleep (k : Nat) (l : List FsOp) :
    invokeCount (FsOp.sleep k :: l) = invokeCount l := by
  simp [invokeCount, List.countP_cons]

lemma invokeCount_remove (p : String) (l : List FsOp) :
    invokeCount (FsOp.removeFile p :: l) = invokeCount l := by
  simp [invokeCount, List.countP_cons]

lemma smA_remove_iff (h t : String) (oc : Nat → Bool) : ∀ n i,
    (FsOp.removeFile t ∈ (safeMergeAttempts h t oc n i).1 ↔
      (safeMergeAttempts h t oc n i).2 = true) := by
  intro n
  induction n with
  | zero => intro i; simp [safeMergeAttempts]
  | succ n ih =>
    intro i
    by_cases hoc : oc i <;> simp [safeMergeAttempts, hoc, ih]

lemma smA_success_iff (h t : String) (oc : Nat → Bool) : ∀ n i,
    ((safeMergeAttempts h t oc n i).2 = true ↔
      ∃ c, FsOp.invoke c true ∈ (safeMergeAttempts h t oc n i).1) := by
  intro n
  induction n with
  | zero => intro i; simp [safeMergeAttempts]
  | succ n ih =>
    intro i
    by_cases hoc : oc i <;> simp [safeMergeAttempts, hoc, ih]

lemma smA_all_fail (h t : String) (oc : Nat → Bool) (hoc : ∀ j, oc j = false) :
    ∀ n i, (safeMergeAttempts h t oc n i).2 = false ∧
      invokeCount (safeMergeAttempts h t oc n i).1 = n := by
  intro n
  induction n with
  | zero => intro i; simp [safeMergeAttempts, invokeCount_nil]
  | succ n ih =>
    intro i
    simp only [safeMergeAttempts, hoc i, Bool.false_eq_true, if_false]
    refine ⟨(ih (i + 1)).1, ?_⟩
    rw [invokeCount_invoke, invokeCount_sleep, (ih (i + 1)).2]

lemma smA_k_fail (h t : String) (oc : Nat → Bool) : ∀ k n i,
    (∀ m, m < k → oc (i + m) = false) → oc (i + k) = true → k < n →
    (safeMergeAttempts h t oc n i).2 = true ∧
      invokeCount (safeMergeAttempts h t oc n i).1 = k + 1 := by
  intro k
  induction k with
  | zero =>
    intro n i _ hk hn
    obtain ⟨n', rfl⟩ : ∃ n', n = n' + 1 := ⟨n - 1, by omega⟩
    simp only [Nat.add_zero] at hk
    simp [safeMergeAttempts, hk, invokeCount_invoke, invokeCount_remove,
      invokeCount_nil]
  | succ k ih =>
    intro n i hfail hk hn
    obtain ⟨n', rfl⟩ : ∃ n', n = n' + 1 := ⟨n - 1, by omega⟩
    have h0 : oc i = false := by simpa using hfail 0 (by omega)
    have hrest := ih n' (i + 1)
      (fun m hm => by
        have := hfail (m + 1) (by omega)
        rwa [show i + (m + 1) = i + 1 + m by omega] at this)
      (by rwa [show i + 1 + k = i + (k + 1) by omega]) (by omega)
    simp only [safeMergeAttempts, h0, Bool.false_eq_true, if_false]
    refine ⟨hrest.1, ?_⟩
    rw [invokeCount_invoke, invokeCount_sleep, hrest.2]

/-- Claim C1: in every execution of `safe_merge`, the segment file is
deleted if and only if the run succeeded, which in turn holds if and
only if some merge-collaborator invocation in its trace succeeded; when
all attempts fail the segment is never deleted. -/
theorem safe_merge_deletes_iff_success (h t : String) (oc : Nat → Bool)
    (retries wait : Nat) :
    (FsOp.removeFile t ∈ (safe_merge h t oc retries wait).1 ↔
      (safe_merge h t oc retries wait).2 = true) ∧
    ((safe_merge h t oc retries wait).2 = true ↔
      ∃ c, FsOp.invoke c true ∈ (safe_merge h t oc retries wait).1) := by
  unfold safe_merge
  constructor
  · simpa using smA_remove_iff h t oc retries 0
  · simpa using smA_success_iff h t oc retries 0

/-- Claim C2: with a merge collaborator failing exactly `k < retries`
times before succeeding, `safe_merge` succeeds after exactly `k + 1`
invocations; with an always-failing collaborator it makes exactly
`retries` invocations and reports failure. -/
theorem safe_merge_retry_bound :
    (∀ (h t : String) (oc : Nat → Bool) (k retries wait : Nat),
      (∀ m, m < k → oc m = false) → oc k = true → k < retries →
      (safe_merge h t oc retries wait).2 = true ∧
        invokeCount (safe_merge h t oc retries wait).1 = k + 1) ∧
    (∀ (h t : String) (oc : Nat → Bool) (retries wait : Nat),
      (∀ j, oc j = false) →
      (safe_merge h t oc retries wait).2 = false ∧
        invokeCount (safe_merge h t oc retries wait).1 = retries) := by
  constructor
  · intro h t oc k retries wait hfail hk hlt
    have := smA_k_fail h t oc k retries 0 (by simpa using hfail) (by simpa using hk) hlt
    unfold safe_merge
    simpa [invokeCount_sleep] using this
  · intro h t oc retries wait hoc
    have := smA_all_fail h t oc hoc retries 0
    unfold safe_merge
    simpa [invokeCount_sleep] using this

/-- Witness for C2 at `k = 2`, `retries = 5`. -/
theorem safe_merge_retry_bound_witness :
    ((safe_merge "h" "t" (fun i => decide (i = 2)) 5 20).2 = true ∧
      invokeCount (safe_merge "h" "t" (fun i => decide (i = 2)) 5 20).1 = 3) ∧
    ((safe_merge "h" "t" (fun _ => false) 5 20).2 = false ∧
      invokeCount (safe_merge "h" "t" (fun _ => false) 5 20).1 = 5) :=
  ⟨safe_merge_retry_bound.1 "h" "t" (fun i => decide (i = 2)) 2 5 20
      (by intro m hm; simp; omega) (by simp) (by omega),
    safe_merge_retry_bound.2 "h" "t" (fun _ => false) 5 20 (fun _ => rfl)⟩

/-- Whether an operation is a rename. -/
def isRename (op : FsOp) : Bool :=
  match op with | .renameFile _ _ => true | _ => false

lemma smA_ops (h t : String) (oc : Nat → Bool) : ∀ n i op,
    op ∈ (safeMergeAttempts h t oc n i).1 →
    op = FsOp.invoke (mergecapCmd h t) true ∨
    op = FsOp.invoke (mergecapCmd h t) false ∨
    op = FsOp.sleep (MERGE_DELAY * 10) ∨ op = FsOp.removeFile t := by
  intro n
  induction n with
  | zero => intro i op hop; simp [safeMergeAttempts] at hop
  | succ n ih =>
    intro i op hop
    by_cases hoc : oc i <;> simp only [safeMergeAttempts, hoc, if_true,
      Bool.false_eq_true, if_false, List.mem_cons, List.mem_singleton,
      List.not_mem_nil] at hop
    · tauto
    · rcases hop with rfl | rfl | hop
      · tauto
      · tauto
      · exact ih (i + 1) op hop

/-- Counterexample to claim C6 as stated: on a successful merge,
`safe_merge`'s trace is exactly an initial wait, one collaborator
invocation whose output path is the Aggregate File itself (which is
also its first input), and the deletion of the segment; no separate
output file is created and no rename/atomic-replace step occurs. -/
theorem merge_no_atomic_replace_counterexample :
    (safe_merge "/captures/cap_20250101_05.pcapng" "/captures/tmp/seg.pcapng"
        (fun _ => true) 5 20).1 =
      [FsOp.sleep 20,
        FsOp.invoke ["mergecap", "-w", "/captures/cap_20250101_05.pcapng",
          "/captures/cap_20250101_05.pcapng", "/captures/tmp/seg.pcapng"] true,
        FsOp.removeFile "/captures/tmp/seg.pcapng"] ∧
    ((safe_merge "/captures/cap_20250101_05.pcapng" "/captures/tmp/seg.pcapng"
        (fun _ => true) 5 20).1.all fun op => !isRename op) = true := by
  constructor <;> rfl

/-- Claim C6 (amended): every merge-collaborator invocation made by
`safe_merge` uses the command whose output path is the Aggregate File
itself (also passed as first input), so the aggregate is rewritten in
place by the collaborator, and no rename (atomic replace) ever occurs
in a `safe_merge` trace. -/
theorem merge_rewrites_aggregate_in_place (h t : String) (oc : Nat → Bool)
    (retries wait : Nat) :
    (∀ c b, FsOp.invoke c b ∈ (safe_merge h t oc retries wait).1 →
      c = mergecapCmd h t) ∧
    (∀ op ∈ (safe_merge h t oc retries wait).1, isRename op = false) := by
  unfold safe_merge
  constructor
  · intro c b hc
    simp only [List.mem_cons] at hc
    rcases hc with hc | hc
    · cases hc
    · rcases smA_ops h t oc retries 0 _ hc with h' | h' | h' | h' <;>
        first
          | (cases h'; rfl)
          | cases h'
  · intro op hop
    simp only [List.mem_cons] at hop
    rcases hop with rfl | hop
    · rfl
    · rcases smA_ops h t oc retries 0 op hop with h' | h' | h' | h' <;>
        (subst h'; rfl)

/-- Witness for the amended C6 at a concrete invocation. -/
theorem merge_rewrites_aggregate_in_place_witness :
    (FsOp.invoke (mergecapCmd "/captures/cap_20250101_05.pcapng"
        "/captures/tmp/seg.pcapng") true ∈
      (safe_merge "/captures/cap_20250101_05.pcapng" "/captures/tmp/seg.pcapng"
        (fun _ => true) 5 20).1) ∧
    mergecapCmd "/captures/cap_20250101_05.pcapng" "/captures/tmp/seg.pcapng" =
      mergecapCmd "/captures/cap_20250101_05.pcapng" "/captures/tmp/seg.pcapng" :=
  ⟨by decide,
    (merge_rewrites_aggregate_in_place "/captures/cap_20250101_05.pcapng"
        "/captures/tmp/seg.pcapng" (fun _ => true) 5 20).1
      (mergecapCmd "/captures/cap_20250101_05.pcapng" "/captures/tmp/seg.pcapng")
      true (by decide)⟩

/-- Claim C3: the code's straddle test (hour fields differ or calendar
dates differ) holds exactly when the `"%Y%m%d_%H"` bucket keys of the
two timestamps differ; and when the keys are equal the segment is
handed directly to the merge executor for that single bucket. -/
theorem straddle_iff_bucket_keys_differ (t₁ t₂ : PyDateTime)
    (h₁ : validDT t₁) (h₂ : validDT t₂) :
    (straddleB t₁ t₂ = true ↔ hourBucketKey t₁ ≠ hourBucketKey t₂) ∧
    (hourBucketKey t₁ = hourBucketKey t₂ →
      ∀ (env : SupEnv) (fuel : Nat) (p : String) (ts : List PyDateTime),
        env.frameTimes p = some (t₁ :: ts) → (t₁ :: ts).getLast? = some t₂ →
        merge_temp_file env (fuel + 1) p =
          (FsOp.invoke (tsharkQueryCmd p) true :: mergeExecutor env p t₁,
            .ok ())) := by
  have hiff := hourBucketKey_eq_iff h₁ h₂
  constructor
  · simp only [straddleB, decide_eq_true_iff, ne_eq, hiff]
    tauto
  · intro hkey env fuel p ts hresp hlast
    have hstrad : straddleB t₁ t₂ = false := by
      have := hiff.1 hkey
      simp only [straddleB, decide_eq_false_iff_not]
      tauto
    simp [merge_temp_file, hresp, get_first_last_time, getFirstLastBody,
      hlast, hstrad]

/-- Concrete datetime used by witnesses. -/
def dtW : PyDateTime := ⟨2025, 3, 10, 12, 0, 0⟩

/-- Witness environment for C3: one segment whose first and last frame
timestamps coincide. -/
def envW3 : SupEnv where
  frameTimes := fun p =>
    if p = "/captures/tmp/w.pcapng" then some [dtW, dtW] else none
  splitOutputs := fun _ => none
  mergeOutcomes := fun _ _ => true
  hourFileExists := fun _ => false

/-- Witness for C3 at a pair of equal timestamps. -/
theorem straddle_iff_bucket_keys_differ_witness :
    (straddleB dtW dtW = true ↔ hourBucketKey dtW ≠ hourBucketKey dtW) ∧
    merge_temp_file envW3 1 "/captures/tmp/w.pcapng" =
      (FsOp.invoke (tsharkQueryCmd "/captures/tmp/w.pcapng") true ::
        mergeExecutor envW3 "/captures/tmp/w.pcapng" dtW, .ok ()) :=
  ⟨(straddle_iff_bucket_keys_differ dtW dtW (by decide) (by decide)).1,
    (straddle_iff_bucket_keys_differ dtW dtW (by decide) (by decide)).2 rfl
      envW3 0 "/captures/tmp/w.pcapng" [dtW] rfl rfl⟩

lemma getLast?_cons_some {α : Type} (t : α) (ts : List α) :
    ∃ b, (t :: ts).getLast? = some b := by
  induction ts generalizing t with
  | nil => exact ⟨t, rfl⟩
  | cons a ts ih =>
    obtain ⟨b, hb⟩ := ih a
    exact ⟨b, by rw [List.getLast?_cons_cons]; exact hb⟩

/-- Claim C8: the timestamp oracle never lets an exception reach its
caller (its handler maps every internal exception to the absent pair),
and its result always has both timestamps present or both absent; an
unreadable response and an empty frame list both give the absent
pair. -/
theorem timestamps_both_or_neither :
    get_first_last_time none = (none, none) ∧
    get_first_last_time (some []) = (none, none) ∧
    (∀ resp e, getFirstLastBody resp = .error e →
      get_first_last_time resp = (none, none)) ∧
    (∀ resp, get_first_last_time resp = (none, none) ∨
      ∃ a b, get_first_last_time resp = (some a, some b)) := by
  refine ⟨rfl, rfl, ?_, ?_⟩
  · intro resp e he
    unfold get_first_last_time
    rw [he]
  · intro resp
    match resp with
    | none => left; rfl
    | some [] => left; rfl
    | some (t :: ts) =>
      right
      obtain ⟨b, hb⟩ := getLast?_cons_some t ts
      exact ⟨t, b, by simp [get_first_last_time, getFirstLastBody, hb]⟩

/-- Witness environment for C9: frames whose positional first and last
lie in hour 12 while a middle frame lies in hour 13. -/
def envW9 : SupEnv where
  frameTimes := fun p =>
    if p = "/captures/tmp/w9.pcapng" then
      some [⟨2025, 3, 10, 12, 50, 0⟩, ⟨2025, 3, 10, 13, 5, 0⟩,
        ⟨2025, 3, 10, 12, 59, 0⟩]
    else none
  splitOutputs := fun _ => none
  mergeOutcomes := fun _ _ => true
  hourFileExists := fun _ => false

/-- Claim C9: `get_first_last_time` returns the collaborator's first
and last entries positionally (not the minimum and maximum); on a
segment whose timestamps are out of order the returned first exceeds
the returned last; and `merge_temp_file`'s straddle decision uses these
positional values, so a middle frame in another hour does not trigger a
split. -/
theorem first_last_positional :
    (∀ (t : PyDateTime) (ts : List PyDateTime),
      get_first_last_time (some (t :: ts)) = (some t, (t :: ts).getLast?)) ∧
    (get_first_last_time
        (some [⟨2025, 3, 10, 12, 0, 0⟩, ⟨2025, 3, 10, 11, 59, 0⟩]) =
      (some ⟨2025, 3, 10, 12, 0, 0⟩, some ⟨2025, 3, 10, 11, 59, 0⟩) ∧
      dtVal ⟨2025, 3, 10, 12, 0, 0⟩ > dtVal ⟨2025, 3, 10, 11, 59, 0⟩) ∧
    ((⟨2025, 3, 10, 13, 5, 0⟩ : PyDateTime).hour ≠
        (⟨2025, 3, 10, 12, 50, 0⟩ : PyDateTime).hour ∧
      merge_temp_file envW9 1 "/captures/tmp/w9.pcapng" =
        (FsOp.invoke (tsharkQueryCmd "/captures/tmp/w9.pcapng") true ::
          mergeExecutor envW9 "/captures/tmp/w9.pcapng" ⟨2025, 3, 10, 12, 50, 0⟩,
          .ok ()) ∧
      FsOp.makeDirs splitDir ∉
        (merge_temp_file envW9 1 "/captures/tmp/w9.pcapng").1) := by
  refine ⟨?_, ⟨rfl, by decide⟩, by decide, rfl, by decide⟩
  intro t ts
  simp [get_first_last_time, getFirstLastBody]

lemma mtf_unreadable (env : SupEnv) (fuel : Nat) (t : String)
    (hresp : env.frameTimes t = none) :
    merge_temp_file env (fuel + 1) t =
      ([FsOp.invoke (tsharkQueryCmd t) false, FsOp.removeFile t], .ok ()) := by
  simp [merge_temp_file, hresp, get_first_last_time, getFirstLastBody]

lemma mtf_empty (env : SupEnv) (fuel : Nat) (t : String)
    (hresp : env.frameTimes t = some []) :
    merge_temp_file env (fuel + 1) t =
      ([FsOp.invoke (tsharkQueryCmd t) true, FsOp.removeFile t], .ok ()) := by
  simp [merge_temp_file, hresp, get_first_last_time, getFirstLastBody]

lemma mtf_single_bucket (env : SupEnv) (fuel : Nat) (t : String)
    (ft lt : PyDateTime) (ts : List PyDateTime)
    (hresp : env.frameTimes t = some (ft :: ts))
    (hlast : (ft :: ts).getLast? = some lt) (hstrad : straddleB ft lt = false) :
    merge_temp_file env (fuel + 1) t =
      (FsOp.invoke (tsharkQueryCmd t) true :: mergeExecutor env t ft, .ok ()) := by
  simp [merge_temp_file, hresp, get_first_last_time, getFirstLastBody, hlast,
    hstrad]

lemma mtf_split_fail (env : SupEnv) (fuel : Nat) (t : String)
    (ft lt : PyDateTime) (ts : List PyDateTime)
    (hresp : env.frameTimes t = some (ft :: ts))
    (hlast : (ft :: ts).getLast? = some lt) (hstrad : straddleB ft lt = true)
    (hsplit : env.splitOutputs t = none) :
    merge_temp_file env (fuel + 1) t =
      ([FsOp.invoke (tsharkQueryCmd t) true, FsOp.makeDirs splitDir,
        FsOp.invoke (editcapCmd t) false], .error .calledProcessError) := by
  simp [merge_temp_file, hresp, get_first_last_time, getFirstLastBody, hlast,
    hstrad, hsplit]

lemma mtf_split_ok (env : SupEnv) (fuel : Nat) (t : String)
    (ft lt : PyDateTime) (ts : List PyDateTime) (fs : List String)
    (hresp : env.frameTimes t = some (ft :: ts))
    (hlast : (ft :: ts).getLast? = some lt) (hstrad : straddleB ft lt = true)
    (hsplit : env.splitOutputs t = some fs)
    (hsub : (runSubs (fun f => merge_temp_file env fuel (splitDir ++ "/" ++ f))
      (sortStrings fs)).2 = .ok ()) :
    merge_temp_file env (fuel + 1) t =
      ([FsOp.invoke (tsharkQueryCmd t) true, FsOp.makeDirs splitDir,
        FsOp.invoke (editcapCmd t) true, FsOp.removeFile t] ++
        (runSubs (fun f => merge_temp_file env fuel (splitDir ++ "/" ++ f))
          (sortStrings fs)).1 ++ [FsOp.rmTree splitDir], .ok ()) := by
  simp [merge_temp_file, hresp, get_first_last_time, getFirstLastBody, hlast,
    hstrad, hsplit, hsub]

lemma mtf_split_err (env : SupEnv) (fuel : Nat) (t : String)
    (ft lt : PyDateTime) (ts : List PyDateTime) (fs : List String) (e : PyErr)
    (hresp : env.frameTimes t = some (ft :: ts))
    (hlast : (ft :: ts).getLast? = some lt) (hstrad : straddleB ft lt = true)
    (hsplit : env.splitOutputs t = some fs)
    (hsub : (runSubs (fun f => merge_temp_file env fuel (splitDir ++ "/" ++ f))
      (sortStrings fs)).2 = .error e) :
    merge_temp_file env (fuel + 1) t =
      ([FsOp.invoke (tsharkQueryCmd t) true, FsOp.makeDirs splitDir,
        FsOp.invoke (editcapCmd t) true, FsOp.removeFile t] ++
        (runSubs (fun f => merge_temp_file env fuel (splitDir ++ "/" ++ f))
          (sortStrings fs)).1, .error e) := by
  simp [merge_temp_file, hresp, get_first_last_time, getFirstLastBody, hlast,
    hstrad, hsplit, hsub]

/-- Environment for the C4 counterexample: segment `a4` straddles and
its split fails; segment `b4` straddles, splits into one sub-segment,
and succeeds. -/
def envW4 : SupEnv where
  frameTimes := fun p =>
    if p = "/captures/tmp/a4.pcapng" then
      some [⟨2025, 1, 1, 10, 0, 0⟩, ⟨2025, 1, 1, 12, 0, 0⟩]
    else if p = "/captures/tmp/b4.pcapng" then
      some [⟨2025, 1, 1, 10, 0, 0⟩, ⟨2025, 1, 1, 12, 0, 0⟩]
    else if p = "/captures/tmp/split/s0" then some [⟨2025, 1, 1, 10, 0, 0⟩]
    else none
  splitOutputs := fun p =>
    if p = "/captures/tmp/b4.pcapng" then some ["s0"] else none
  mergeOutcomes := fun _ _ => true
  hourFileExists := fun _ => false

/-- Counterexample to claim C4 as stated: when the split collaborator
fails for segment `a4`, the operation exits with the exception, having
created the split directory and never removed it; and for the
successful split of segment `b4`, the original segment is removed (at
trace index 3) before its sub-segment is processed (index 4), not
after. -/
theorem split_cleanup_counterexample :
    ((merge_temp_file envW4 2 "/captures/tmp/a4.pcapng").2 =
        .error .calledProcessError ∧
      FsOp.makeDirs splitDir ∈
        (merge_temp_file envW4 2 "/captures/tmp/a4.pcapng").1 ∧
      FsOp.rmTree splitDir ∉
        (merge_temp_file envW4 2 "/captures/tmp/a4.pcapng").1) ∧
    ((merge_temp_file envW4 2 "/captures/tmp/b4.pcapng").1.get? 3 =
        some (FsOp.removeFile "/captures/tmp/b4.pcapng") ∧
      (merge_temp_file envW4 2 "/captures/tmp/b4.pcapng").1.get? 4 =
        some (FsOp.invoke (tsharkQueryCmd "/captures/tmp/split/s0") true)) := by
  exact ⟨⟨rfl, by decide, by decide⟩, rfl, rfl⟩

/-- Claim C4 (amended): on the split path, a split-collaborator failure
propagates as an exception and the created split directory is not
removed; on a successful split the original segment is deleted
immediately after splitting — before the sub-segments are processed —
and the split directory is removed (as the final operation) only when
every sub-segment is processed without an uncaught error, a sub-segment
failure propagating instead. -/
theorem split_cleanup_amended (env : SupEnv) (fuel : Nat) (t : String)
    (ft lt : PyDateTime) (ts : List PyDateTime)
    (hresp : env.frameTimes t = some (ft :: ts))
    (hlast : (ft :: ts).getLast? = some lt)
    (hstrad : straddleB ft lt = true) :
    (env.splitOutputs t = none →
      (merge_temp_file env (fuel + 1) t).2 = .error .calledProcessError ∧
      FsOp.makeDirs splitDir ∈ (merge_temp_file env (fuel + 1) t).1 ∧
      FsOp.rmTree splitDir ∉ (merge_temp_file env (fuel + 1) t).1) ∧
    (∀ fs, env.splitOutputs t = some fs →
      (merge_temp_file env (fuel + 1) t).1.take 4 =
        [FsOp.invoke (tsharkQueryCmd t) true, FsOp.makeDirs splitDir,
          FsOp.invoke (editcapCmd t) true, FsOp.removeFile t] ∧
      ((runSubs (fun f => merge_temp_file env fuel (splitDir ++ "/" ++ f))
          (sortStrings fs)).2 = .ok () →
        (merge_temp_file env (fuel + 1) t).1.getLast? =
          some (FsOp.rmTree splitDir)) ∧
      (∀ e, (runSubs (fun f => merge_temp_file env fuel (splitDir ++ "/" ++ f))
          (sortStrings fs)).2 = .error e →
        (merge_temp_file env (fuel + 1) t).2 = .error e)) := by
  constructor
  · intro hsplit
    rw [mtf_split_fail env fuel t ft lt ts hresp hlast hstrad hsplit]
    refine ⟨rfl, by simp, by simp [splitDir]⟩
  · intro fs hsplit
    rcases hs : (runSubs (fun f => merge_temp_file env fuel (splitDir ++ "/" ++ f))
        (sortStrings fs)).2 with e | u
    · rw [mtf_split_err env fuel t ft lt ts fs e hresp hlast hstrad hsplit hs]
      dsimp only
      refine ⟨List.take_left' rfl, fun hok => ?_, fun e' he' => ?_⟩
      · exact Except.noConfusion hok
      · exact he'
    · rw [mtf_split_ok env fuel t ft lt ts fs hresp hlast hstrad hsplit hs]
      dsimp only
      refine ⟨?_, fun _ => ?_, fun e' he' => ?_⟩
      · rw [List.append_assoc]
        exact List.take_left' rfl
      · exact List.getLast?_concat _
      · exact Except.noConfusion he'

/-- Witness for the amended C4 on the successful-split scenario. -/
theorem split_cleanup_amended_witness :
    envW4.splitOutputs "/captures/tmp/b4.pcapng" = some ["s0"] ∧
    (merge_temp_file envW4 2 "/captures/tmp/b4.pcapng").1.take 4 =
      [FsOp.invoke (tsharkQueryCmd "/captures/tmp/b4.pcapng") true,
        FsOp.makeDirs splitDir,
        FsOp.invoke (editcapCmd "/captures/tmp/b4.pcapng") true,
        FsOp.removeFile "/captures/tmp/b4.pcapng"] :=
  ⟨rfl, ((split_cleanup_amended envW4 1 "/captures/tmp/b4.pcapng"
      ⟨2025, 1, 1, 10, 0, 0⟩ ⟨2025, 1, 1, 12, 0, 0⟩ [⟨2025, 1, 1, 12, 0, 0⟩]
      rfl rfl (by decide)).2 ["s0"] rfl).1⟩

/-- Directory operations of an acceptable trace step: any `makeDirs` or
`rmTree` it performs targets the one shared split directory. -/
def dirOpOK (op : FsOp) : Prop :=
  (∀ p, op = FsOp.makeDirs p → p = splitDir) ∧
  (∀ p, op = FsOp.rmTree p → p = splitDir)

lemma mergeExecutor_dirOpOK (env : SupEnv) (t : String) (ft : PyDateTime) :
    ∀ op ∈ mergeExecutor env t ft, dirOpOK op := by
  intro op hop
  unfold mergeExecutor at hop
  by_cases hex : env.hourFileExists (hourPath ft)
  · rw [if_pos hex] at hop
    unfold safe_merge at hop
    simp only [List.mem_cons] at hop
    rcases hop with rfl | hop
    · exact ⟨fun p h => by simp at h, fun p h => by simp at h⟩
    · rcases smA_ops _ _ _ _ _ _ hop with rfl | rfl | rfl | rfl <;>
        exact ⟨fun p h => by simp at h, fun p h => by simp at h⟩
  · rw [if_neg hex] at hop
    simp only [List.mem_singleton] at hop
    subst hop
    exact ⟨fun p h => by simp at h, fun p h => by simp at h⟩

lemma runSubs_mem (g : String → List FsOp × Except PyErr Unit) :
    ∀ (l : List String) (op : FsOp), op ∈ (runSubs g l).1 →
      ∃ f ∈ l, op ∈ (g f).1 := by
  intro l
  induction l with
  | nil => intro op hop; simp [runSubs] at hop
  | cons f fs ih =>
    intro op hop
    simp only [runSubs] at hop
    rcases hr : (g f).2 with e | u <;> rw [hr] at hop
    · exact ⟨f, by simp, hop⟩
    · simp only [List.mem_append] at hop
      rcases hop with hop | hop
      · exact ⟨f, by simp, hop⟩
      · obtain ⟨f', hf', hop'⟩ := ih op hop
        exact ⟨f', by simp [hf'], hop'⟩

lemma mtf_dirOpOK (env : SupEnv) :
    ∀ fuel t, ∀ op ∈ (merge_temp_file env fuel t).1, dirOpOK op := by
  intro fuel
  induction fuel with
  | zero => intro t op hop; simp [merge_temp_file] at hop
  | succ fuel ih =>
    intro t op hop
    rcases hresp : env.frameTimes t with _ | frames
    · rw [mtf_unreadable env fuel t hresp] at hop
      simp only [List.mem_cons, List.mem_singleton, List.not_mem_nil,
        or_false] at hop
      rcases hop with rfl | rfl <;>
        exact ⟨fun p h => by simp at h, fun p h => by simp at h⟩
    · rcases frames with _ | ⟨ft, ts⟩
      · rw [mtf_empty env fuel t hresp] at hop
        simp only [List.mem_cons, List.mem_singleton, List.not_mem_nil,
          or_false] at hop
        rcases hop with rfl | rfl <;>
          exact ⟨fun p h => by simp at h, fun p h => by simp at h⟩
      · obtain ⟨lt, hlast⟩ := getLast?_cons_some ft ts
        rcases hstrad : straddleB ft lt with _ | _
        · rw [mtf_single_bucket env fuel t ft lt ts hresp hlast hstrad] at hop
          simp only [List.mem_cons] at hop
          rcases hop with rfl | hop
          · exact ⟨fun p h => by simp at h, fun p h => by simp at h⟩
          · exact mergeExecutor_dirOpOK env t ft op hop
        · rcases hsplit : env.splitOutputs t with _ | fs
          · rw [mtf_split_fail env fuel t ft lt ts hresp hlast hstrad hsplit]
              at hop
            simp only [List.mem_cons, List.mem_singleton, List.not_mem_nil,
              or_false] at hop
            rcases hop with rfl | rfl | rfl <;>
              refine ⟨fun p h => ?_, fun p h => ?_⟩ <;>
                first
                  | (injection h with h'; exact h'.symm)
                  | simp at h
          · have hsubmem : ∀ op ∈ (runSubs
                (fun f => merge_temp_file env fuel (splitDir ++ "/" ++ f))
                (sortStrings fs)).1, dirOpOK op := by
              intro op' hop'
              obtain ⟨f', _, hmem⟩ := runSubs_mem _ _ op' hop'
              exact ih (splitDir ++ "/" ++ f') op' hmem
            rcases hs : (runSubs
                (fun f => merge_temp_file env fuel (splitDir ++ "/" ++ f))
                (sortStrings fs)).2 with e | u
            · rw [mtf_split_err env fuel t ft lt ts fs e hresp hlast hstrad
                hsplit hs] at hop
              simp only [List.mem_append, List.mem_cons, List.mem_singleton,
                List.not_mem_nil, or_false] at hop
              rcases hop with (rfl | rfl | rfl | rfl) | hop
              · exact ⟨fun p h => by simp at h, fun p h => by simp at h⟩
              · refine ⟨fun p h => ?_, fun p h => by simp at h⟩
                injection h with h'; exact h'.symm
              · exact ⟨fun p h => by simp at h, fun p h => by simp at h⟩
              · exact ⟨fun p h => by simp at h, fun p h => by simp at h⟩
              · exact hsubmem op hop
            · rw [mtf_split_ok env fuel t ft lt ts fs hresp hlast hstrad
                hsplit hs] at hop
              simp only [List.mem_append, List.mem_cons, List.mem_singleton,
                List.not_mem_nil, or_false] at hop
              rcases hop with ((rfl | rfl | rfl | rfl) | hop) | rfl
              · exact ⟨fun p h => by simp at h, fun p h => by simp at h⟩
              · refine ⟨fun p h => ?_, fun p h => by simp at h⟩
                injection h with h'; exact h'.symm
              · exact ⟨fun p h => by simp at h, fun p h => by simp at h⟩
              · exact ⟨fun p h => by simp at h, fun p h => by simp at h⟩
              · exact hsubmem op hop
              · refine ⟨fun p h => by simp at h, fun p h => ?_⟩
                injection h with h'; exact h'.symm

/-- Environment for C10: segment `a` straddles and splits into `s0` and
`s1`; sub-segment `s0` still straddles and splits again into `u0`, so a
nested split invocation runs while the outer one is midway through its
sub-segments. -/
def envW10 : SupEnv where
  frameTimes := fun p =>
    if p = "/captures/tmp/a.pcapng" then
      some [⟨2025, 1, 1, 10, 0, 0⟩, ⟨2025, 1, 1, 12, 0, 0⟩]
    else if p = "/captures/tmp/split/s0" then
      some [⟨2025, 1, 1, 10, 30, 0⟩, ⟨2025, 1, 1, 11, 30, 0⟩]
    else if p = "/captures/tmp/split/s1" then some [⟨2025, 1, 1, 12, 0, 0⟩]
    else if p = "/captures/tmp/split/u0" then some [⟨2025, 1, 1, 10, 40, 0⟩]
    else none
  splitOutputs := fun p =>
    if p = "/captures/tmp/a.pcapng" then some ["s0", "s1"]
    else if p = "/captures/tmp/split/s0" then some ["u0"]
    else none
  mergeOutcomes := fun _ _ => true
  hourFileExists := fun _ => false

/-- Claim C10: every `makeDirs` and every `rmTree` performed anywhere in
a `merge_temp_file` trace — in particular by nested split invocations —
targets the single fixed directory `TEMP_DIR/split`; and in the nested
scenario of `envW10` the nested invocation's removal of that shared
directory (trace index 10) happens before the outer invocation
processes its remaining sub-segment `s1` (indices 11-12) and before the
outer invocation's own removal (index 13). -/
theorem split_dir_shared_and_removed_mid_iteration :
    (∀ (env : SupEnv) (fuel : Nat) (t p : String),
      FsOp.makeDirs p ∈ (merge_temp_file env fuel t).1 → p = splitDir) ∧
    (∀ (env : SupEnv) (fuel : Nat) (t p : String),
      FsOp.rmTree p ∈ (merge_temp_file env fuel t).1 → p = splitDir) ∧
    ((merge_temp_file envW10 3 "/captures/tmp/a.pcapng").1.get? 10 =
        some (FsOp.rmTree splitDir) ∧
      (merge_temp_file envW10 3 "/captures/tmp/a.pcapng").1.get? 11 =
        some (FsOp.invoke (tsharkQueryCmd "/captures/tmp/split/s1") true) ∧
      (merge_temp_file envW10 3 "/captures/tmp/a.pcapng").1.get? 13 =
        some (FsOp.rmTree splitDir) ∧
      (merge_temp_file envW10 3 "/captures/tmp/a.pcapng").1.length = 14) := by
  refine ⟨?_, ?_, rfl, rfl, rfl, rfl⟩
  · intro env fuel t p hp
    exact (mtf_dirOpOK env fuel t _ hp).1 p rfl
  · intro env fuel t p hp
    exact (mtf_dirOpOK env fuel t _ hp).2 p rfl

/-- Witness for C10's trace-membership hypotheses at a concrete run. -/
theorem split_dir_shared_witness :
    (FsOp.makeDirs splitDir ∈
        (merge_temp_file envW10 3 "/captures/tmp/a.pcapng").1 ∧
      FsOp.rmTree splitDir ∈
        (merge_temp_file envW10 3 "/captures/tmp/a.pcapng").1) ∧
    splitDir = splitDir ∧ splitDir = splitDir :=
  ⟨⟨by decide, by decide⟩,
    split_dir_shared_and_removed_mid_iteration.1 envW10 3
      "/captures/tmp/a.pcapng" splitDir (by decide),
    split_dir_shared_and_removed_mid_iteration.2.1 envW10 3
      "/captures/tmp/a.pcapng" splitDir (by decide)⟩

/-- Whether an operation is a timestamp query for segment `p`. -/
def queriesPath (p : String) (op : FsOp) : Bool :=
  match op with
  | .invoke c _ => decide (c = tsharkQueryCmd p)
  | _ => false

/-- Environment for the C5 counterexample: segment `a` straddles and
its split collaborator fails; segments `b` and `c` are also listed. -/
def envW5 : SupEnv where
  frameTimes := fun p =>
    if p = "/captures/tmp/a.pcapng" then
      some [⟨2025, 1, 1, 10, 0, 0⟩, ⟨2025, 1, 1, 12, 0, 0⟩]
    else none
  splitOutputs := fun _ => none
  mergeOutcomes := fun _ _ => false
  hourFileExists := fun _ => false

/-- Schedule for the C5 counterexample: three segments listed, no stop
requested, producer alive. -/
def schedW5 : Nat → SupObs := fun _ =>
  ⟨["a.pcapng", "b.pcapng", "c.pcapng"], false, true⟩

/-- Counterexample to claim C5 as stated: the split-collaborator
failure on segment `a` aborts the whole supervisor loop with the
uncaught exception, and the remaining segments `b` and `c` of the same
poll are never handed to the pipeline (no timestamp query for them
appears in the run's trace). -/
theorem supervisor_abort_counterexample :
    (supervisor_loop envW5 schedW5 2 3 0 []).2 = .error .calledProcessError ∧
    ((supervisor_loop envW5 schedW5 2 3 0 []).1.all fun op =>
      !queriesPath "/captures/tmp/b.pcapng" op) = true ∧
    ((supervisor_loop envW5 schedW5 2 3 0 []).1.all fun op =>
      !queriesPath "/captures/tmp/c.pcapng" op) = true :=
  ⟨rfl, rfl, rfl⟩

/-- A segment that never triggers the split branch: its frame
timestamps, when present and nonempty, have positional first and last
in the same hour bucket. -/
def nonStraddling (env : SupEnv) (p : String) : Prop :=
  ∀ t ts l, env.frameTimes p = some (t :: ts) → (t :: ts).getLast? = some l →
    straddleB t l = false

lemma mtf_nonstraddle_ok (env : SupEnv) (p : String) (fuel : Nat)
    (h : nonStraddling env p) :
    (merge_temp_file env (fuel + 1) p).2 = .ok () := by
  rcases hresp : env.frameTimes p with _ | frames
  · rw [mtf_unreadable env fuel p hresp]
  · rcases frames with _ | ⟨ft, ts⟩
    · rw [mtf_empty env fuel p hresp]
    · obtain ⟨lt, hlast⟩ := getLast?_cons_some ft ts
      rw [mtf_single_bucket env fuel p ft lt ts hresp hlast
        (h ft ts lt hresp hlast)]

lemma processList_nonstraddle_ok (env : SupEnv) (mf : Nat)
    (h : ∀ p, nonStraddling env p) :
    ∀ fs proc, (processList env (mf + 1) fs proc).2.2 = .ok () := by
  intro fs
  induction fs with
  | nil => intro proc; rfl
  | cons f fs ih =>
    intro proc
    simp only [processList]
    by_cases hmem : (TEMP_DIR ++ "/" ++ f) ∈ proc
    · rw [if_pos hmem]; exact ih proc
    · rw [if_neg hmem,
        mtf_nonstraddle_ok env (TEMP_DIR ++ "/" ++ f) mf (h _)]
      exact ih _

/-- Claim C5 (amended): merge-collaborator failures and unreadable
segments are handled locally and never abort the supervisor loop —
over any environment whose segments never take the split branch, with
arbitrary merge outcomes and arbitrary unreadable segments, every run
either exits normally or merely exhausts the embedding's iteration
budget, never an uncaught exception. -/
theorem supervisor_survives_nonsplit_failures (env : SupEnv)
    (sched : Nat → SupObs) (mf : Nat) (h : ∀ p, nonStraddling env p) :
    ∀ fuel i proc,
      (supervisor_loop env sched (mf + 1) fuel i proc).2 =
        .error .recursionLimit ∨
      ∃ r, (supervisor_loop env sched (mf + 1) fuel i proc).2 = .ok r := by
  intro fuel
  induction fuel with
  | zero => intro i proc; left; rfl
  | succ fuel ih =>
    intro i proc
    simp only [supervisor_loop]
    split
    case _ e heq =>
      exfalso
      rcases Nat.decLe 2 (pcapFiles (sched i).listing).length with hlen | hlen
      · rw [if_neg (by omega)] at heq
        exact Except.noConfusion heq
      · rw [if_pos (by omega)] at heq
        rw [show (FsOp.sleep (WAIT_AFTER_FINISH * 10) ::
            (processList env (mf + 1) (pcapFiles (sched i).listing).dropLast
              proc).1,
            (processList env (mf + 1) (pcapFiles (sched i).listing).dropLast
              proc).2).2.2
          = (processList env (mf + 1) (pcapFiles (sched i).listing).dropLast
              proc).2.2 from rfl] at heq
        rw [processList_nonstraddle_ok env mf h _ _] at heq
        exact Except.noConfusion heq
    case _ u heq =>
      split
      · split
        case _ e heq2 =>
          exfalso
          rw [processList_nonstraddle_ok env mf h _ _] at heq2
          exact Except.noConfusion heq2
        case _ u2 heq2 =>
          right
          exact ⟨_, rfl⟩
      · rcases ih (i + 1) _ with hrec | ⟨r, hrec⟩
        · left; exact hrec
        · right; exact ⟨r, hrec⟩

/-- Witness environment for the amended C5: every segment is
unreadable, merges always fail, stop is signalled at once. -/
def envW5b : SupEnv where
  frameTimes := fun _ => none
  splitOutputs := fun _ => none
  mergeOutcomes := fun _ _ => false
  hourFileExists := fun _ => true

/-- Schedule for the amended C5 witness. -/
def schedW5b : Nat → SupObs := fun _ => ⟨["x.pcapng"], true, false⟩

/-- Witness for the amended C5. -/
theorem supervisor_survives_nonsplit_failures_witness :
    (supervisor_loop envW5b schedW5b 1 1 0 []).2 = .error .recursionLimit ∨
    ∃ r, (supervisor_loop envW5b schedW5b 1 1 0 []).2 = .ok r :=
  supervisor_survives_nonsplit_failures envW5b schedW5b 0
    (fun p t ts l hresp _ => by simp [envW5b] at hresp) 1 0 []

lemma processList_mono (env : SupEnv) (mf : Nat) :
    ∀ (fs : List String) (proc : List String) (x : String), x ∈ proc →
      x ∈ (processList env mf fs proc).2.1 := by
  intro fs
  induction fs with
  | nil => intro proc x hx; exact hx
  | cons f fs ih =>
    intro proc x hx
    simp only [processList]
    by_cases hmem : (TEMP_DIR ++ "/" ++ f) ∈ proc
    · rw [if_pos hmem]; exact ih proc x hx
    · rw [if_neg hmem]
      rcases hr : (merge_temp_file env mf (TEMP_DIR ++ "/" ++ f)).2 with e | u
      · exact hx
      · exact ih _ x (by simp [hx])

lemma processList_ok_covers (env : SupEnv) (mf : Nat) :
    ∀ (fs : List String) (proc : List String) (u : Unit),
      (processList env mf fs proc).2.2 = .ok u → ∀ f ∈ fs,
      (TEMP_DIR ++ "/" ++ f) ∈ (processList env mf fs proc).2.1 := by
  intro fs
  induction fs with
  | nil => intro proc u _ f hf; simp at hf
  | cons f₀ fs ih =>
    intro proc u hok f hf
    simp only [processList] at hok ⊢
    by_cases hmem : (TEMP_DIR ++ "/" ++ f₀) ∈ proc
    · rw [if_pos hmem] at hok ⊢
      rcases List.mem_cons.1 hf with rfl | hf'
      · exact processList_mono env mf fs proc _ hmem
      · exact ih proc u hok f hf'
    · rw [if_neg hmem] at hok ⊢
      rcases hr : (merge_temp_file env mf (TEMP_DIR ++ "/" ++ f₀)).2 with e | u'
      · rw [hr] at hok
        exact Except.noConfusion hok
      · rw [hr] at hok
        rcases List.mem_cons.1 hf with rfl | hf'
        · exact processList_mono env mf fs _ _ (by simp)
        · exact ih _ u hok f hf'

/-- Claim C7: the supervisor loop exits normally only in an iteration
whose observation has the stop signal set and the capture producer not
alive, and on exit every segment of that iteration's directory listing
— the most recent file included — is in the processed set, having been
handed to the merge pipeline. -/
theorem supervisor_exit_requires_stop (env : SupEnv) (sched : Nat → SupObs)
    (mf : Nat) :
    ∀ (fuel i : Nat) (proc procF : List String) (obs : SupObs),
      (supervisor_loop env sched mf fuel i proc).2 = .ok (procF, obs) →
      obs.stop = true ∧ obs.tsharkAlive = false ∧
      ∀ f ∈ pcapFiles obs.listing, (TEMP_DIR ++ "/" ++ f) ∈ procF := by
  intro fuel
  induction fuel with
  | zero =>
    intro i proc procF obs heq
    exact Except.noConfusion heq
  | succ fuel ih =>
    intro i proc procF obs heq
    simp only [supervisor_loop] at heq
    split at heq
    case _ e hphase => exact Except.noConfusion heq
    case _ u hphase =>
      split at heq
      case isTrue hcond =>
        split at heq
        case _ e hr2 => exact Except.noConfusion heq
        case _ u2 hr2 =>
          simp only at heq
          injection heq with heq'
          injection heq' with h1 h2
          subst h1
          subst h2
          rw [Bool.and_eq_true] at hcond
          refine ⟨hcond.1, ?_, ?_⟩
          · have := hcond.2
            simpa using this
          · intro f hf
            exact processList_ok_covers env mf _ _ u2 hr2 f hf
      case isFalse hcond =>
        simp only at heq
        exact ih (i + 1) _ procF obs heq

/-- Witness environment for C7: all segments unreadable. -/
def envW7 : SupEnv where
  frameTimes := fun _ => none
  splitOutputs := fun _ => none
  mergeOutcomes := fun _ _ => true
  hourFileExists := fun _ => false

/-- Schedule for the C7 witness: stop signalled, producer stopped. -/
def schedW7 : Nat → SupObs := fun _ =>
  { listing := ["x.pcapng", "y.pcapng"], stop := true, tsharkAlive := false }

/-- Witness for C7 on a run that exits normally after draining both
listed segments, the most recent included. -/
theorem supervisor_exit_requires_stop_witness :
    ({ listing := ["x.pcapng", "y.pcapng"], stop := true,
        tsharkAlive := false } : SupObs).stop = true ∧
    ({ listing := ["x.pcapng", "y.pcapng"], stop := true,
        tsharkAlive := false } : SupObs).tsharkAlive = false ∧
    TEMP_DIR ++ "/" ++ "y.pcapng" ∈
      ["/captures/tmp/y.pcapng", "/captures/tmp/x.pcapng"] :=
  have h := supervisor_exit_requires_stop envW7 schedW7 1 2 0 []
    ["/captures/tmp/y.pcapng", "/captures/tmp/x.pcapng"]
    { listing := ["x.pcapng", "y.pcapng"], stop := true, tsharkAlive := false }
    (by rfl)
  ⟨h.1, h.2.1, h.2.2 "y.pcapng" (by decide)⟩

/-- Witness for C1 at a concrete invocation. -/
theorem safe_merge_deletes_iff_success_witness :
    FsOp.removeFile "/captures/tmp/t.pcapng" ∈
      (safe_merge "/captures/cap_20250101_05.pcapng" "/captures/tmp/t.pcapng"
        (fun _ => true) 5 20).1 ↔
    (safe_merge "/captures/cap_20250101_05.pcapng" "/captures/tmp/t.pcapng"
        (fun _ => true) 5 20).2 = true :=
  (safe_merge_deletes_iff_success "/captures/cap_20250101_05.pcapng"
    "/captures/tmp/t.pcapng" (fun _ => true) 5 20).1

/-- Witness for C8: the handler maps the unreadable case to the absent
pair. -/
theorem timestamps_both_or_neither_witness :
    get_first_last_time none = (none, none) :=
  timestamps_both_or_neither.2.2.1 none .calledProcessError rfl

/-- Witness for C9 at a singleton frame list. -/
theorem first_last_positional_witness :
    get_first_last_time (some [dtW]) =
      (some dtW, ([dtW] : List PyDateTime).getLast?) :=
  first_last_positional.1 dtW []
